import Mathlib

/-! InspIRCd `LogManager` (src/logger.cpp)

A shallow embedding of the log routing registry of `logger.cpp`:
`LogManager::AddLogType`, `LogManager::DelLogType` and `LogManager::Log`,
followed by the properties established about them.

Modelling conventions.

* A `LogStream *` is an address; the registry only stores, compares and
  deletes such pointers, so a stream is a natural number.
* `std::map<std::string, std::vector<LogStream *> >` is the finite map it
  denotes: a function from keys to optional vectors.  The code uses `find`,
  a comparison with `end()`, `operator[]` assignment and `erase(iterator)`
  only, never the iteration order of the map.
* `std::vector<LogStream *>` is a list; an iterator into it is an index.
* Effects that leave the object are returned: the `delete` statements a call
  executes (`Outcome.deleted`) and the `OnLog` calls a dispatch makes.
* The first loop of `DelLogType` has no step that advances its iterator, so
  it is run with fuel; `none` means that the fuel ran out.
-/

namespace InspIRCd

/-! ## Data model -/

/-- A `LogStream *`, known to the registry by its address only. -/
abbrev LogStream := Nat

/-- The type of the member `LogStreams`: category to chain of streams. -/
abbrev StreamMap := String → Option (List LogStream)

namespace StreamMap

/-- The map without any key. -/
def empty : StreamMap := fun _ => none

/-- Lookup `LogStreams.find(type)`: `none` stands for `LogStreams.end()`. -/
def find (m : StreamMap) (type : String) : Option (List LogStream) := m type

/-- Assignment `LogStreams[type] = v`, also used for writing through `i->second`. -/
def assign (m : StreamMap) (type : String) (v : List LogStream) : StreamMap :=
  fun k => if k = type then some v else m k

/-- Removal `LogStreams.erase(i)` of the element with key `type`. -/
def erase (m : StreamMap) (type : String) : StreamMap :=
  fun k => if k = type then none else m k

end StreamMap

/-- The two data members of `LogManager` that `logger.cpp` reads and writes. -/
structure LogManager where
  LogStreams : StreamMap
  GlobalLogStreams : List LogStream

/-- The registry in which nothing was registered yet. -/
def LogManager.empty : LogManager := ⟨StreamMap.empty, []⟩

/-- What a returning call of `AddLogType` or `DelLogType` leaves behind: the
returned `bool`, the manager afterwards, and the pointers it passed to `delete`,
in execution order. -/
structure Outcome where
  ret : Bool
  mgr : LogManager
  deleted : List LogStream

/-- One call `stream->OnLog(loglevel, msg)`. -/
structure OnLogCall where
  stream : LogStream
  loglevel : Int
  msg : String
  deriving DecidableEq, Repr

/-! ## Operations -/

/-- `LogManager::AddLogType` (lines 45-62). -/
def AddLogType (type : String) (l : LogStream) (m : LogManager) : Outcome :=
  let streams :=
    match m.LogStreams.find type with
    | some v => m.LogStreams.assign type (v ++ [l])
    | none => m.LogStreams.assign type ([] ++ [l])
  let globals := if type = "*" then m.GlobalLogStreams ++ [l] else m.GlobalLogStreams
  { ret := true, mgr := ⟨streams, globals⟩, deleted := [] }

/-- The loop over `GlobalLogStreams` in `DelLogType` (lines 67-76), entered
with `gi = 0`.  A match erases the element at `gi` and breaks; on a mismatch
the body does nothing, so `gi` keeps its value and the test is repeated. -/
def delGlobalScan (l : LogStream) (g : List LogStream) (gi : Nat) : Nat → Option (List LogStream)
  | 0 => none
  | fuel + 1 =>
    match g[gi]? with
    | none => some g
    | some x => if x = l then some (g.eraseIdx gi) else delGlobalScan l g gi fuel

/-- The loop over `i->second` in `DelLogType` (lines 82-98), up to the test
`*it == l`: the position of the first match, scanning `rest` whose head sits
at index `it`; every mismatch is followed by `it++`. -/
def findStream (l : LogStream) : List LogStream → Nat → Option Nat
  | [], _ => none
  | x :: rest, it => if x = l then some it else findStream l rest (it + 1)

/-- `LogManager::DelLogType` (lines 64-102); `none` when `fuel` iterations of
the first loop were not enough for it to end. -/
def DelLogType (fuel : Nat) (type : String) (l : LogStream) (m : LogManager) : Option Outcome :=
  match delGlobalScan l m.GlobalLogStreams 0 fuel with
  | none => none
  | some globals =>
    match m.LogStreams.find type with
    | none => some ⟨false, ⟨m.LogStreams, globals⟩, []⟩
    | some v =>
      match findStream l v 0 with
      | none => some ⟨false, ⟨m.LogStreams, globals⟩, []⟩
      | some it =>
        let v2 := v.eraseIdx it
        let written := m.LogStreams.assign type v2
        let streams := if v2.length = 0 then written.erase type else written
        some ⟨true, ⟨streams, globals⟩, [l]⟩

/-- The `OnLog` calls of one pass over a vector of streams, first to last. -/
def notify (loglevel : Int) (msg : String) (v : List LogStream) : List OnLogCall :=
  v.map (fun s => ⟨s, loglevel, msg⟩)

/-- `LogManager::Log(type, loglevel, msg)` (lines 116-143): the `OnLog` calls
it makes, in order.  The manager itself is not written. -/
def Log (type : String) (loglevel : Int) (msg : String) (m : LogManager) : List OnLogCall :=
  match m.LogStreams.find type with
  | some v => notify loglevel msg v
  | none => notify loglevel msg m.GlobalLogStreams

/-- Modelled from the spec: the C library function `vsnprintf`, which
`logger.cpp` calls and does not define.  The buffer that
`vsnprintf(buf, size, fmt, a)` leaves when `fmt` and `a` render to `rendered`:
at most `size - 1` characters of the rendering (the bounded, truncating
rendering of the spec), then the terminating NUL.  One `Char` stands for one
C `char`. -/
def vsnprintf (size : Nat) (rendered : List Char) : List Char :=
  rendered.take (size - 1) ++ [Char.ofNat 0]

/-- The conversion `std::string(buf)` of a `char` buffer: the characters
before the first NUL. -/
def stdString (buf : List Char) : String :=
  String.mk (buf.takeWhile (fun c => c ≠ Char.ofNat 0))

/-- The overload `LogManager::Log(type, loglevel, fmt, ...)` (lines 104-114),
given as `rendered` what the C library renders `fmt` and the arguments to:
`char buf[65536]`, `vsnprintf(buf, 65536, fmt, a)`, then the plain `Log`. -/
def LogFmt (type : String) (loglevel : Int) (rendered : String) (m : LogManager) :
    List OnLogCall :=
  Log type loglevel (stdString (vsnprintf 65536 rendered.data)) m

/-! ## Derived notions used in the statements -/

/-- The chain registered for `type`, empty when the map has no such key. -/
def entry (m : LogManager) (type : String) : List LogStream :=
  (m.LogStreams.find type).getD []

/-- How many of the given `OnLog` calls were made on stream `s`. -/
def callsOn (s : LogStream) (calls : List OnLogCall) : Nat :=
  calls.countP (fun c => c.stream = s)

/-- States reached from the empty registry by `AddLogType` calls and by
`DelLogType` calls that return. -/
inductive Reachable : LogManager → Prop
  | init : Reachable LogManager.empty
  | add {m : LogManager} (type : String) (l : LogStream) :
      Reachable m → Reachable (AddLogType type l m).mgr
  | del {m : LogManager} (fuel : Nat) (type : String) (l : LogStream) (out : Outcome) :
      Reachable m → DelLogType fuel type l m = some out → Reachable out.mgr

/-- The manager after a sequence of registrations, applied left to right. -/
def addAll (ops : List (String × LogStream)) (m : LogManager) : LogManager :=
  ops.foldl (fun acc op => (AddLogType op.1 op.2 acc).mgr) m

/-- The streams that a sequence of registrations put under `type`, in order. -/
def registeredUnder (type : String) (ops : List (String × LogStream)) : List LogStream :=
  (ops.filter (fun op => op.1 = type)).map Prod.snd

/-- One call of the registry by its host. -/
inductive Op where
  | add (type : String) (l : LogStream)
  | del (type : String) (l : LogStream)
  deriving DecidableEq, Repr

/-- A registry together with every pointer it has passed to `delete` so far,
in execution order. -/
structure History where
  mgr : LogManager
  deleted : List LogStream

/-- The history at the start: the empty registry, nothing deleted. -/
def History.empty : History := ⟨LogManager.empty, []⟩

/-- One call on a history; `none` when the call is a `DelLogType` that does
not return within `fuel`. -/
def step (fuel : Nat) (h : History) : Op → Option History
  | Op.add type l =>
    some ⟨(AddLogType type l h.mgr).mgr, h.deleted ++ (AddLogType type l h.mgr).deleted⟩
  | Op.del type l =>
    match DelLogType fuel type l h.mgr with
    | none => none
    | some out => some ⟨out.mgr, h.deleted ++ out.deleted⟩

/-- A sequence of calls, first to last, each started when the one before it
has returned. -/
def run (fuel : Nat) : List Op → History → Option History
  | [], h => some h
  | op :: rest, h =>
    match step fuel h op with
    | none => none
    | some h2 => run fuel rest h2

/-- Whether no stream is passed to `AddLogType` after the registry has deleted
it, when `ops` is run from `h`; calls behind one that does not return are not
made and so not looked at. -/
def addsFresh (fuel : Nat) : List Op → History → Bool
  | [], _ => true
  | op :: rest, h =>
    (match op with
      | Op.add _ l => decide (l ∉ h.deleted)
      | Op.del _ _ => true) &&
    (match step fuel h op with
      | none => true
      | some h2 => addsFresh fuel rest h2)

/-! ## Lemmas on the map and on the two scans -/

theorem StreamMap.find_assign_same (m : StreamMap) (type : String) (v : List LogStream) :
    (m.assign type v).find type = some v := by
  simp [StreamMap.find, StreamMap.assign]

theorem StreamMap.find_assign_other (m : StreamMap) (type k : String) (v : List LogStream)
    (hk : k ≠ type) : (m.assign type v).find k = m.find k := by
  simp [StreamMap.find, StreamMap.assign, hk]

theorem StreamMap.find_erase_same (m : StreamMap) (type : String) :
    (m.erase type).find type = none := by
  simp [StreamMap.find, StreamMap.erase]

theorem StreamMap.find_erase_other (m : StreamMap) (type k : String) (hk : k ≠ type) :
    (m.erase type).find k = m.find k := by
  simp [StreamMap.find, StreamMap.erase, hk]

/-- A returning wildcard scan removed the first occurrence of `l`, and it can
only return on an empty vector or on a vector that starts with `l`. -/
theorem delGlobalScan_eq_some (l : LogStream) (g g2 : List LogStream) (fuel : Nat)
    (h : delGlobalScan l g 0 fuel = some g2) :
    g2 = g.erase l ∧ (g = [] ∨ g.head? = some l) := by
  induction fuel with
  | zero => simp [delGlobalScan] at h
  | succ n ih =>
    cases g with
    | nil =>
      simp [delGlobalScan] at h
      subst h
      simp
    | cons x rest =>
      by_cases hx : x = l
      · simp [delGlobalScan, hx] at h
        simp [← h, hx]
      · simp [delGlobalScan, hx] at h
        exact ih h

/-- The wildcard scan returns as soon as it has one unit of fuel when the
vector is empty or starts with `l`. -/
theorem delGlobalScan_returns (l : LogStream) (g : List LogStream) (fuel : Nat)
    (hg : g = [] ∨ g.head? = some l) :
    delGlobalScan l g 0 (fuel + 1) = some (g.erase l) := by
  cases g with
  | nil => simp [delGlobalScan]
  | cons x rest =>
    have hx : x = l := by simpa using hg
    simp [delGlobalScan, hx]

/-- The wildcard scan never returns on a non-empty vector whose first element
is not `l`, whatever the fuel. -/
theorem delGlobalScan_stuck (l x : LogStream) (rest : List LogStream) (hx : x ≠ l) (fuel : Nat) :
    delGlobalScan l (x :: rest) 0 fuel = none := by
  induction fuel with
  | zero => rfl
  | succ n ih => simpa [delGlobalScan, hx] using ih

theorem findStream_eq_none (l : LogStream) (v : List LogStream) (k : Nat) :
    findStream l v k = none ↔ l ∉ v := by
  induction v generalizing k with
  | nil => simp [findStream]
  | cons x rest ih =>
    by_cases hx : x = l
    · simp [findStream, hx]
    · have hx2 : ¬ l = x := fun e => hx e.symm
      simp [findStream, hx, hx2, ih]

theorem findStream_eq_some (l : LogStream) (v : List LogStream) (k it : Nat)
    (h : findStream l v k = some it) :
    k ≤ it ∧ l ∈ v ∧ v.eraseIdx (it - k) = v.erase l := by
  induction v generalizing k with
  | nil => simp [findStream] at h
  | cons x rest ih =>
    by_cases hx : x = l
    · simp [findStream, hx] at h
      simp [← h, hx]
    · simp [findStream, hx] at h
      obtain ⟨h1, h2, h3⟩ := ih (k + 1) h
      have hk : it - k = (it - (k + 1)) + 1 := by omega
      have hb : ¬ (x == l) = true := by simpa using hx
      refine ⟨by omega, List.mem_cons_of_mem _ h2, ?_⟩
      rw [hk, List.eraseIdx_cons_succ, h3, List.erase_cons_tail hb]

/-- Removing the first occurrence splits the vector around that occurrence. -/
theorem erase_split (l : LogStream) (v : List LogStream) (h : l ∈ v) :
    ∃ pre post, v = pre ++ l :: post ∧ l ∉ pre ∧ v.erase l = pre ++ post := by
  obtain ⟨pre, post, h1, h2, h3⟩ := List.exists_erase_eq h
  exact ⟨pre, post, h2, h1, h3⟩

/-- Everything a returning `DelLogType` does, by whether `l` is in the chain of `type`. -/
theorem DelLogType_eq_some (fuel : Nat) (type : String) (l : LogStream) (m : LogManager)
    (out : Outcome) (h : DelLogType fuel type l m = some out) :
    out.mgr.GlobalLogStreams = m.GlobalLogStreams.erase l ∧
    (l ∈ entry m type → out.ret = true ∧ out.deleted = [l] ∧
      out.mgr.LogStreams =
        if (entry m type).erase l = [] then m.LogStreams.erase type
        else m.LogStreams.assign type ((entry m type).erase l)) ∧
    (l ∉ entry m type → out.ret = false ∧ out.deleted = [] ∧
      out.mgr.LogStreams = m.LogStreams) := by
  unfold DelLogType at h
  cases hg : delGlobalScan l m.GlobalLogStreams 0 fuel with
  | none => simp [hg] at h
  | some globals =>
    have hglob := (delGlobalScan_eq_some l _ _ fuel hg).1
    cases hf : m.LogStreams.find type with
    | none =>
      simp [hg, hf] at h
      subst h
      simp [entry, hf, hglob]
    | some v =>
      cases hs : findStream l v 0 with
      | none =>
        have hnot : l ∉ v := (findStream_eq_none l v 0).1 hs
        simp [hg, hf, hs] at h
        subst h
        simp [entry, hf, hglob, hnot]
      | some it =>
        obtain ⟨-, hmem, her⟩ := findStream_eq_some l v 0 it hs
        simp only [Nat.sub_zero] at her
        simp only [hg, hf, hs, her, Option.some.injEq, List.length_eq_zero] at h
        subst h
        refine ⟨hglob, fun _ => ⟨rfl, rfl, ?_⟩, fun hn => absurd (by simpa [entry, hf] using hmem) hn⟩
        simp only [entry, hf, Option.getD_some]
        by_cases he : v.erase l = []
        · simp only [he, if_true]
          funext k
          by_cases hk : k = type <;> simp [StreamMap.erase, StreamMap.assign, hk]
        · simp only [he, if_false]

theorem AddLogType_find_same (m : LogManager) (C : String) (S : LogStream) :
    (AddLogType C S m).mgr.LogStreams.find C = some (entry m C ++ [S]) := by
  cases hf : m.LogStreams.find C <;>
    simp [AddLogType, entry, hf, StreamMap.find_assign_same]

theorem AddLogType_find_other (m : LogManager) (C D : String) (S : LogStream) (hD : D ≠ C) :
    (AddLogType C S m).mgr.LogStreams.find D = m.LogStreams.find D := by
  cases hf : m.LogStreams.find C <;>
    simp [AddLogType, hf, StreamMap.find_assign_other _ _ _ _ hD]

theorem AddLogType_globals (m : LogManager) (C : String) (S : LogStream) :
    (AddLogType C S m).mgr.GlobalLogStreams
      = (if C = "*" then m.GlobalLogStreams ++ [S] else m.GlobalLogStreams) := rfl

theorem callsOn_notify (S : LogStream) (lvl : Int) (msg : String) (v : List LogStream) :
    callsOn S (notify lvl msg v) = v.count S := by
  simp only [notify, callsOn, List.countP_map, List.count, Function.comp_def]
  apply List.countP_congr
  intro a _
  simp

/-- The map and the wildcard vector after a sequence of registrations. -/
theorem addAll_spec (ops : List (String × LogStream)) (m : LogManager) (C : String) :
    (addAll ops m).LogStreams.find C
      = (if registeredUnder C ops = [] then m.LogStreams.find C
         else some (entry m C ++ registeredUnder C ops)) ∧
    (addAll ops m).GlobalLogStreams = m.GlobalLogStreams ++ registeredUnder "*" ops := by
  induction ops generalizing m with
  | nil => simp [addAll, registeredUnder]
  | cons op rest ih =>
    obtain ⟨D, S⟩ := op
    have hstep : addAll ((D, S) :: rest) m = addAll rest (AddLogType D S m).mgr := rfl
    obtain ⟨ih1, ih2⟩ := ih (AddLogType D S m).mgr
    rw [hstep, ih1, ih2, AddLogType_globals]
    constructor
    · by_cases hD : D = C
      · subst hD
        have hreg : registeredUnder D ((D, S) :: rest) = S :: registeredUnder D rest := by
          simp [registeredUnder]
        have hent : entry (AddLogType D S m).mgr D = entry m D ++ [S] := by
          simp [entry, AddLogType_find_same]
        rw [hreg, hent, AddLogType_find_same]
        by_cases hr : registeredUnder D rest = [] <;> simp [hr]
      · have hC : C ≠ D := fun e => hD e.symm
        have hreg : registeredUnder C ((D, S) :: rest) = registeredUnder C rest := by
          simp [registeredUnder, hD]
        have hent : entry (AddLogType D S m).mgr C = entry m C := by
          simp [entry, AddLogType_find_other m D C S hC]
        rw [hreg, hent, AddLogType_find_other m D C S hC]
    · by_cases hD : D = "*"
      · simp [registeredUnder, hD]
      · simp [registeredUnder, hD]

/-- Reachable registries hold no empty chain. -/
theorem Reachable_chain_ne_nil (m : LogManager) (h : Reachable m) :
    ∀ (C : String) (v : List LogStream), m.LogStreams.find C = some v → v ≠ [] := by
  induction h with
  | init => intro C v hv; simp [LogManager.empty, StreamMap.empty, StreamMap.find] at hv
  | add type l _ ih =>
    intro C v hv
    by_cases hC : C = type
    · subst hC
      rw [AddLogType_find_same] at hv
      simp at hv
      simp [← hv]
    · rw [AddLogType_find_other _ _ _ _ hC] at hv
      exact ih C v hv
  | del fuel type l out hm hdel ih =>
    rename_i m0
    intro C v hv
    obtain ⟨-, hin, hout⟩ := DelLogType_eq_some fuel type l m0 out hdel
    by_cases hl : l ∈ entry m0 type
    · rw [(hin hl).2.2] at hv
      by_cases he : (entry m0 type).erase l = []
      · simp only [he, if_true] at hv
        by_cases hC : C = type
        · subst hC
          simp [StreamMap.find_erase_same] at hv
        · rw [StreamMap.find_erase_other _ _ _ hC] at hv
          exact ih C v hv
      · simp only [he, if_false] at hv
        by_cases hC : C = type
        · subst hC
          rw [StreamMap.find_assign_same] at hv
          simp at hv
          simpa [← hv] using he
        · rw [StreamMap.find_assign_other _ _ _ _ hC] at hv
          exact ih C v hv
    · rw [(hout hl).2.2] at hv
      exact ih C v hv

/-! ## Dispatch -/

/-- C1. When the map has a chain `v` for category `C`, `Log(C, lvl, msg)` calls
`OnLog(lvl, msg)` on the streams of `v`, once per occurrence and in the order
of `v`, whatever the wildcard vector `g` holds: the call list is the same for
every other wildcard vector, and a stream receives as many calls as it has
occurrences in `v`. -/
theorem Log_explicit_exclusive (streams : StreamMap) (g : List LogStream) (C : String)
    (v : List LogStream) (lvl : Int) (msg : String) (h : streams.find C = some v) :
    Log C lvl msg ⟨streams, g⟩ = v.map (fun s => ⟨s, lvl, msg⟩) ∧
    (∀ g2 : List LogStream, Log C lvl msg ⟨streams, g2⟩ = Log C lvl msg ⟨streams, g⟩) ∧
    (∀ S : LogStream, callsOn S (Log C lvl msg ⟨streams, g⟩) = v.count S) := by
  refine ⟨by simp [Log, h, notify], fun g2 => by simp [Log, h], fun S => ?_⟩
  simp only [Log, h, callsOn_notify]

/-- C1, at a concrete registry: stream 7 is under "KILL" once and in the
wildcard vector, with stream 8; a "KILL" dispatch calls 7 once and 8 never. -/
theorem Log_explicit_exclusive_witness :
    (StreamMap.empty.assign "KILL" [7]).find "KILL" = some [7] ∧
    (Log "KILL" 1 "x" ⟨StreamMap.empty.assign "KILL" [7], [7, 8]⟩
        = [7].map (fun s => ⟨s, 1, "x"⟩) ∧
      (∀ g2 : List LogStream, Log "KILL" 1 "x" ⟨StreamMap.empty.assign "KILL" [7], g2⟩
        = Log "KILL" 1 "x" ⟨StreamMap.empty.assign "KILL" [7], [7, 8]⟩) ∧
      (∀ S : LogStream,
        callsOn S (Log "KILL" 1 "x" ⟨StreamMap.empty.assign "KILL" [7], [7, 8]⟩)
          = [7].count S)) :=
  ⟨by decide, Log_explicit_exclusive _ [7, 8] "KILL" [7] 1 "x" (by decide)⟩

/-- C2. When the map has no chain for category `C`, `Log(C, lvl, msg)` calls
`OnLog(lvl, msg)` on the elements of the wildcard vector, once per occurrence
and in order, with `lvl` and `msg` as given; with an empty wildcard vector it
makes no call. -/
theorem Log_wildcard_fallback (m : LogManager) (C : String) (lvl : Int) (msg : String)
    (h : m.LogStreams.find C = none) :
    Log C lvl msg m = m.GlobalLogStreams.map (fun s => ⟨s, lvl, msg⟩) ∧
    (∀ S : LogStream, callsOn S (Log C lvl msg m) = m.GlobalLogStreams.count S) ∧
    (m.GlobalLogStreams = [] → Log C lvl msg m = []) := by
  refine ⟨by simp [Log, h, notify], fun S => ?_, fun hg => by simp [Log, h, notify, hg]⟩
  simp only [Log, h, callsOn_notify]

/-- C2, at a concrete registry: only "*" has a chain, holding stream 8, which is
also the wildcard vector; an "XLINE" dispatch calls 8 once. -/
theorem Log_wildcard_fallback_witness :
    (AddLogType "*" 8 LogManager.empty).mgr.LogStreams.find "XLINE" = none ∧
    Log "XLINE" 2 "ban added" (AddLogType "*" 8 LogManager.empty).mgr
      = [⟨8, 2, "ban added"⟩] :=
  ⟨by decide,
   (Log_wildcard_fallback (AddLogType "*" 8 LogManager.empty).mgr "XLINE" 2 "ban added"
      (by decide)).1⟩

/-! ## Registration -/

/-- C3. `AddLogType(C, S)` returns true for every registry, category and
stream; afterwards the chain of `C` is the previous chain (empty if there was
none) followed by `S`, every other key is as before, the wildcard vector has
`S` appended exactly when `C` is "*", and the call deletes nothing. -/
theorem AddLogType_post (m : LogManager) (C : String) (S : LogStream) :
    (AddLogType C S m).ret = true ∧
    (AddLogType C S m).mgr.LogStreams.find C = some (entry m C ++ [S]) ∧
    (∀ D : String, D ≠ C → (AddLogType C S m).mgr.LogStreams.find D = m.LogStreams.find D) ∧
    (AddLogType C S m).mgr.GlobalLogStreams
      = (if C = "*" then m.GlobalLogStreams ++ [S] else m.GlobalLogStreams) ∧
    (AddLogType C S m).deleted = [] := by
  exact ⟨rfl, AddLogType_find_same m C S, fun D hD => AddLogType_find_other m C D S hD,
    rfl, rfl⟩

/-! ## Deregistration -/

/-- C4. A returning `DelLogType(C, S)` returns true exactly when `S` occurs in
the chain that `C` had before the call, and false when `C` had no chain. -/
theorem DelLogType_ret_iff (fuel : Nat) (m : LogManager) (C : String) (S : LogStream)
    (out : Outcome) (h : DelLogType fuel C S m = some out) :
    (out.ret = true ↔ S ∈ entry m C) ∧
    (m.LogStreams.find C = none → out.ret = false) := by
  obtain ⟨-, hin, hout⟩ := DelLogType_eq_some fuel C S m out h
  constructor
  · constructor
    · intro hr
      by_contra hn
      simp [(hout hn).1] at hr
    · exact fun hm => (hin hm).1
  · intro hnone
    exact (hout (by simp [entry, hnone])).1

/-- C4, at a concrete registry: 7 is alone under "KILL" and alone in the
wildcard vector; `DelLogType("KILL", 7)` returns true. -/
theorem DelLogType_ret_iff_witness :
    DelLogType 1 "KILL" 7 ⟨StreamMap.empty.assign "KILL" [7], [7]⟩
      = some ⟨true, ⟨((StreamMap.empty.assign "KILL" [7]).assign "KILL" []).erase "KILL", []⟩, [7]⟩ ∧
    ((true = true ↔ 7 ∈ entry ⟨StreamMap.empty.assign "KILL" [7], [7]⟩ "KILL") ∧
      ((StreamMap.empty.assign "KILL" [7]).find "KILL" = none → true = false)) :=
  ⟨rfl, DelLogType_ret_iff 1 ⟨StreamMap.empty.assign "KILL" [7], [7]⟩ "KILL" 7
    ⟨true, ⟨((StreamMap.empty.assign "KILL" [7]).assign "KILL" []).erase "KILL", []⟩, [7]⟩ rfl⟩

/-- C5. When `S` occurs in the chain of `C`, a returning `DelLogType(C, S)`
leaves for `C` the previous chain without its first occurrence of `S`, the
other elements in their order; the key `C` is gone from the map exactly when
that chain is empty; the call deletes `S` once and nothing else; and every
other key is as before. -/
theorem DelLogType_found (fuel : Nat) (m : LogManager) (C : String) (S : LogStream)
    (out : Outcome) (hS : S ∈ entry m C) (h : DelLogType fuel C S m = some out) :
    (∃ pre post : List LogStream, entry m C = pre ++ S :: post ∧ S ∉ pre ∧
      entry out.mgr C = pre ++ post ∧
      out.mgr.LogStreams.find C = (if pre ++ post = [] then none else some (pre ++ post))) ∧
    out.deleted = [S] ∧
    (∀ D : String, D ≠ C → out.mgr.LogStreams.find D = m.LogStreams.find D) := by
  obtain ⟨-, hin, -⟩ := DelLogType_eq_some fuel C S m out h
  obtain ⟨-, hdel, hmap⟩ := hin hS
  obtain ⟨pre, post, h1, h2, h3⟩ := erase_split S (entry m C) hS
  rw [h3] at hmap
  have hfind : out.mgr.LogStreams.find C
      = (if pre ++ post = [] then none else some (pre ++ post)) := by
    rw [hmap]
    by_cases he : pre ++ post = []
    · simp only [he, if_true, StreamMap.find_erase_same]
    · simp only [he, if_false, StreamMap.find_assign_same]
  refine ⟨⟨pre, post, h1, h2, ?_, hfind⟩, hdel, ?_⟩
  · unfold entry
    rw [hfind]
    by_cases he : pre ++ post = []
    · simp only [he, if_true, Option.getD_none]
    · simp only [he, if_false, Option.getD_some]
  · intro D hD
    rw [hmap]
    by_cases he : pre ++ post = []
    · simp only [he, if_true, StreamMap.find_erase_other _ _ _ hD]
    · simp only [he, if_false, StreamMap.find_assign_other _ _ _ _ hD]

/-- C5, at a concrete registry: "KILL" has the chain 7, 8, 7 and "XLINE" the
chain 8; `DelLogType("KILL", 7)` leaves 8, 7 under "KILL", deletes 7 once and
does not touch "XLINE". -/
theorem DelLogType_found_witness :
    7 ∈ entry ⟨(StreamMap.empty.assign "XLINE" [8]).assign "KILL" [7, 8, 7], []⟩ "KILL" ∧
    DelLogType 1 "KILL" 7 ⟨(StreamMap.empty.assign "XLINE" [8]).assign "KILL" [7, 8, 7], []⟩
      = some ⟨true, ⟨((StreamMap.empty.assign "XLINE" [8]).assign "KILL" [7, 8, 7]).assign
          "KILL" [8, 7], []⟩, [7]⟩ ∧
    ((∃ pre post : List LogStream,
        entry ⟨(StreamMap.empty.assign "XLINE" [8]).assign "KILL" [7, 8, 7], []⟩ "KILL"
          = pre ++ 7 :: post ∧ 7 ∉ pre ∧
        entry ⟨((StreamMap.empty.assign "XLINE" [8]).assign "KILL" [7, 8, 7]).assign
          "KILL" [8, 7], []⟩ "KILL" = pre ++ post ∧
        (((StreamMap.empty.assign "XLINE" [8]).assign "KILL" [7, 8, 7]).assign
          "KILL" [8, 7]).find "KILL" = (if pre ++ post = [] then none else some (pre ++ post))) ∧
      [7] = [7] ∧
      (∀ D : String, D ≠ "KILL" →
        (((StreamMap.empty.assign "XLINE" [8]).assign "KILL" [7, 8, 7]).assign
          "KILL" [8, 7]).find D
        = ((StreamMap.empty.assign "XLINE" [8]).assign "KILL" [7, 8, 7]).find D)) :=
  ⟨by decide, rfl,
   DelLogType_found 1 ⟨(StreamMap.empty.assign "XLINE" [8]).assign "KILL" [7, 8, 7], []⟩
    "KILL" 7
    ⟨true, ⟨((StreamMap.empty.assign "XLINE" [8]).assign "KILL" [7, 8, 7]).assign
      "KILL" [8, 7], []⟩, [7]⟩ (by decide) rfl⟩

/-- C6. When `S` does not occur in the chain of `C`, a returning
`DelLogType(C, S)` returns false, leaves the whole map as it was and deletes
nothing, while the wildcard vector is the previous one without its first
occurrence of `S`. -/
theorem DelLogType_not_found (fuel : Nat) (m : LogManager) (C : String) (S : LogStream)
    (out : Outcome) (hS : S ∉ entry m C) (h : DelLogType fuel C S m = some out) :
    out.ret = false ∧ out.mgr.LogStreams = m.LogStreams ∧ out.deleted = [] ∧
    out.mgr.GlobalLogStreams = m.GlobalLogStreams.erase S := by
  obtain ⟨hglob, -, hout⟩ := DelLogType_eq_some fuel C S m out h
  obtain ⟨h1, h2, h3⟩ := hout hS
  exact ⟨h1, h3, h2, hglob⟩

/-- C6, at a concrete registry: 7 is under "*" and first in the wildcard vector
7, 8, and "KILL" has no chain; `DelLogType("KILL", 7)` returns false, deletes
nothing and keeps the map, yet the wildcard vector is left as 8. -/
theorem DelLogType_not_found_witness :
    7 ∉ entry ⟨StreamMap.empty.assign "*" [7, 8], [7, 8]⟩ "KILL" ∧
    DelLogType 1 "KILL" 7 ⟨StreamMap.empty.assign "*" [7, 8], [7, 8]⟩
      = some ⟨false, ⟨StreamMap.empty.assign "*" [7, 8], [8]⟩, []⟩ ∧
    (false = false ∧ StreamMap.empty.assign "*" [7, 8] = StreamMap.empty.assign "*" [7, 8] ∧
      ([] : List LogStream) = [] ∧ [8] = [7, 8].erase 7) :=
  ⟨by decide, rfl,
   DelLogType_not_found 1 ⟨StreamMap.empty.assign "*" [7, 8], [7, 8]⟩ "KILL" 7
    ⟨false, ⟨StreamMap.empty.assign "*" [7, 8], [8]⟩, []⟩ (by decide) rfl⟩

/-- C7, the code at two failing inputs.  After `AddLogType("*", 7)` and
`AddLogType("*", 8)` the wildcard vector is 7, 8, and `DelLogType("*", 8)` does
not return for any amount of fuel although 8 occurs in the wildcard vector.
After `AddLogType("*", 7)` and `AddLogType("KILL", 8)` the wildcard vector is 7,
and `DelLogType("KILL", 8)` does not return either, although 8 is not in the
wildcard vector and is registered under "KILL".  In both the scan stays on the
first element, which is not the stream looked for. -/
theorem DelLogType_wildcard_scan_stuck :
    (∀ fuel : Nat,
      DelLogType fuel "*" 8 (AddLogType "*" 8 (AddLogType "*" 7 LogManager.empty).mgr).mgr
        = none) ∧
    (∀ fuel : Nat,
      DelLogType fuel "KILL" 8 (AddLogType "KILL" 8 (AddLogType "*" 7 LogManager.empty).mgr).mgr
        = none) := by
  constructor
  · intro fuel
    have hg : (AddLogType "*" 8 (AddLogType "*" 7 LogManager.empty).mgr).mgr.GlobalLogStreams
        = [7, 8] := rfl
    simp only [DelLogType, hg, delGlobalScan_stuck 8 7 [8] (by decide) fuel]
  · intro fuel
    have hg : (AddLogType "KILL" 8 (AddLogType "*" 7 LogManager.empty).mgr).mgr.GlobalLogStreams
        = [7] := rfl
    simp only [DelLogType, hg, delGlobalScan_stuck 8 7 [] (by decide) fuel]

/-! ## Invariant of the map -/

/-- C8. In every registry reached from the empty one by `AddLogType` calls and
returning `DelLogType` calls, a category that has a chain in the map has a
non-empty one: it has a chain exactly when it has at least one stream. -/
theorem Reachable_no_empty_entry (m : LogManager) (h : Reachable m) (C : String) :
    (∀ v : List LogStream, m.LogStreams.find C = some v → v ≠ []) ∧
    ((m.LogStreams.find C).isSome = true ↔ ∃ S : LogStream, S ∈ entry m C) := by
  have hne := Reachable_chain_ne_nil m h C
  refine ⟨hne, ?_⟩
  cases hf : m.LogStreams.find C with
  | none => simp [entry, hf]
  | some v =>
    have hv : v ≠ [] := hne v hf
    simp only [entry, hf, Option.isSome_some, Option.getD_some, true_iff]
    exact List.exists_mem_of_ne_nil v hv

/-- C8, at a concrete registry: after `AddLogType("KILL", 7)`,
`AddLogType("XLINE", 8)` and `DelLogType("KILL", 7)` the map has no key "KILL"
and "KILL" has no stream. -/
theorem Reachable_no_empty_entry_witness :
    Reachable ⟨(((AddLogType "XLINE" 8 (AddLogType "KILL" 7 LogManager.empty).mgr).mgr.LogStreams.assign
        "KILL" []).erase "KILL"), []⟩ ∧
    ((∀ v : List LogStream,
        (((AddLogType "XLINE" 8 (AddLogType "KILL" 7 LogManager.empty).mgr).mgr.LogStreams.assign
          "KILL" []).erase "KILL").find "KILL" = some v → v ≠ []) ∧
      (((((AddLogType "XLINE" 8 (AddLogType "KILL" 7 LogManager.empty).mgr).mgr.LogStreams.assign
          "KILL" []).erase "KILL").find "KILL").isSome = true ↔
        ∃ S : LogStream, S ∈ entry
          ⟨(((AddLogType "XLINE" 8 (AddLogType "KILL" 7 LogManager.empty).mgr).mgr.LogStreams.assign
            "KILL" []).erase "KILL"), []⟩ "KILL")) :=
  have hreach : Reachable
      ⟨(((AddLogType "XLINE" 8 (AddLogType "KILL" 7 LogManager.empty).mgr).mgr.LogStreams.assign
        "KILL" []).erase "KILL"), []⟩ :=
    Reachable.del 1 "KILL" 7
      ⟨true, ⟨(((AddLogType "XLINE" 8 (AddLogType "KILL" 7 LogManager.empty).mgr).mgr.LogStreams.assign
        "KILL" []).erase "KILL"), []⟩, [7]⟩
      (Reachable.add "XLINE" 8 (Reachable.add "KILL" 7 Reachable.init)) rfl
  ⟨hreach, Reachable_no_empty_entry _ hreach "KILL"⟩

/-! ## Registration and dispatch together -/

/-- C9 as stated fails: with 7 registered under "*" only, `Log("KILL", 1, "x")`
calls 7 once through the wildcard vector; after `AddLogType("KILL", 7)` it
calls 7 once through the chain of "KILL", which is not one call more. -/
theorem AddLogType_one_more_fails :
    callsOn 7 (Log "KILL" 1 "x" (AddLogType "*" 7 LogManager.empty).mgr) = 1 ∧
    callsOn 7 (Log "KILL" 1 "x"
      (AddLogType "KILL" 7 (AddLogType "*" 7 LogManager.empty).mgr).mgr) = 1 ∧
    callsOn 7 (Log "KILL" 1 "x"
      (AddLogType "KILL" 7 (AddLogType "*" 7 LogManager.empty).mgr).mgr)
      ≠ callsOn 7 (Log "KILL" 1 "x" (AddLogType "*" 7 LogManager.empty).mgr) + 1 := by
  decide

/-- C9, amended. After `AddLogType(C, S)`, `Log(C, lvl, msg)` calls `S` one
more time than `S` occurred in the previous chain of `C`; that is one call
more than `Log(C, lvl, msg)` made on `S` before the registration exactly when
`C` had a chain before or `S` is not in the wildcard vector. -/
theorem AddLogType_one_more_iff (m : LogManager) (C : String) (S : LogStream) (lvl : Int)
    (msg : String) :
    callsOn S (Log C lvl msg (AddLogType C S m).mgr) = (entry m C).count S + 1 ∧
    (callsOn S (Log C lvl msg (AddLogType C S m).mgr) = callsOn S (Log C lvl msg m) + 1 ↔
      ((m.LogStreams.find C).isSome = true ∨ S ∉ m.GlobalLogStreams)) := by
  have hafter : callsOn S (Log C lvl msg (AddLogType C S m).mgr) = (entry m C).count S + 1 := by
    simp only [Log, AddLogType_find_same, callsOn_notify]
    simp
  refine ⟨hafter, ?_⟩
  rw [hafter]
  cases hf : m.LogStreams.find C with
  | none =>
    simp only [Log, hf, callsOn_notify, entry, Option.getD_none, List.count_nil, zero_add,
      Option.isSome_none, Bool.false_eq_true, false_or]
    rw [← List.count_eq_zero]
    omega
  | some v =>
    simp [Log, hf, callsOn_notify, entry]

/-- C10. After any sequence `ops` of `AddLogType` calls on the empty registry,
`Log(C, lvl, msg)` calls `OnLog(lvl, msg)` on the streams registered under `C`,
in registration order and once per registration, when there is one; otherwise
on the streams registered under "*", in registration order and once per
registration. -/
theorem Log_registration_order (ops : List (String × LogStream)) (C : String) (lvl : Int)
    (msg : String) :
    Log C lvl msg (addAll ops LogManager.empty) =
      (if registeredUnder C ops ≠ [] then
        (registeredUnder C ops).map (fun s => ⟨s, lvl, msg⟩)
       else (registeredUnder "*" ops).map (fun s => ⟨s, lvl, msg⟩)) := by
  obtain ⟨h1, h2⟩ := addAll_spec ops LogManager.empty C
  have hnone : LogManager.empty.LogStreams.find C = none := rfl
  have hent : entry LogManager.empty C = [] := rfl
  have hglob : LogManager.empty.GlobalLogStreams = [] := rfl
  rw [hnone, hent] at h1
  rw [hglob] at h2
  by_cases hr : registeredUnder C ops = []
  · simp only [hr, if_true] at h1
    simp only [Log, h1, h2, notify, hr, ne_eq, not_true_eq_false, if_false, List.nil_append]
  · simp only [hr, if_false] at h1
    simp only [Log, h1, notify, hr, ne_eq, not_false_eq_true, if_true, List.nil_append]

/-! ## Lemmas on returning and on the formatted overload -/

/-- A `DelLogType` call returns exactly when its wildcard scan does. -/
theorem DelLogType_isSome_iff (fuel : Nat) (type : String) (l : LogStream) (m : LogManager) :
    (∃ out, DelLogType fuel type l m = some out) ↔
      ∃ g2, delGlobalScan l m.GlobalLogStreams 0 fuel = some g2 := by
  unfold DelLogType
  cases hg : delGlobalScan l m.GlobalLogStreams 0 fuel with
  | none => simp
  | some globals =>
    cases hf : m.LogStreams.find type with
    | none => simp
    | some v =>
      refine ⟨fun _ => ⟨_, rfl⟩, fun _ => ?_⟩
      show ∃ out, (match findStream l v 0 with
        | none => some ⟨false, ⟨m.LogStreams, globals⟩, []⟩
        | some it =>
          some ⟨true, ⟨if (v.eraseIdx it).length = 0
            then (m.LogStreams.assign type (v.eraseIdx it)).erase type
            else m.LogStreams.assign type (v.eraseIdx it), globals⟩, [l]⟩) = some out
      cases findStream l v 0 with
      | none => exact ⟨_, rfl⟩
      | some it => exact ⟨_, rfl⟩

/-- With one unit of fuel `DelLogType` returns when the wildcard vector is
empty or starts with the stream. -/
theorem DelLogType_returns (type : String) (l : LogStream) (m : LogManager)
    (hg : m.GlobalLogStreams = [] ∨ m.GlobalLogStreams.head? = some l) (fuel : Nat) :
    ∃ out, DelLogType (fuel + 1) type l m = some out :=
  (DelLogType_isSome_iff (fuel + 1) type l m).2
    ⟨_, delGlobalScan_returns l m.GlobalLogStreams fuel hg⟩

/-- Reading a buffer up to its first NUL gives back what was written before
the terminator, when that holds no NUL. -/
theorem takeWhile_terminated (xs : List Char) (hxs : ∀ c ∈ xs, c ≠ Char.ofNat 0) :
    (xs ++ [Char.ofNat 0]).takeWhile (fun c => c ≠ Char.ofNat 0) = xs := by
  induction xs with
  | nil => simp
  | cons x rest ih =>
    have hx : x ≠ Char.ofNat 0 := hxs x (List.mem_cons_self _ _)
    have hrest : ∀ c ∈ rest, c ≠ Char.ofNat 0 := fun c hc => hxs c (List.mem_cons_of_mem _ hc)
    have hstep : ((x :: rest) ++ [Char.ofNat 0]).takeWhile (fun c => c ≠ Char.ofNat 0)
        = x :: (rest ++ [Char.ofNat 0]).takeWhile (fun c => c ≠ Char.ofNat 0) := by
      rw [List.cons_append, List.takeWhile_cons]
      simp [hx]
    rw [hstep, ih hrest]

/-- The chains after `AddLogType`. -/
theorem AddLogType_entry (m : LogManager) (C D : String) (S : LogStream) :
    entry (AddLogType C S m).mgr D = (if D = C then entry m C ++ [S] else entry m D) := by
  by_cases hD : D = C
  · subst hD
    simp [entry, AddLogType_find_same]
  · simp only [hD, if_false, entry, AddLogType_find_other m C D S hD]

/-- The chains after a returning `DelLogType`: only the chain of `type` can
differ, by the first occurrence of `l`. -/
theorem DelLogType_entry (fuel : Nat) (type D : String) (l : LogStream) (m : LogManager)
    (out : Outcome) (h : DelLogType fuel type l m = some out) :
    entry out.mgr D = (if D = type then (entry m type).erase l else entry m D) := by
  obtain ⟨-, hin, hout⟩ := DelLogType_eq_some fuel type l m out h
  by_cases hl : l ∈ entry m type
  · have hmap := (hin hl).2.2
    by_cases he : (entry m type).erase l = []
    · simp only [he, if_true] at hmap
      by_cases hD : D = type
      · subst hD
        rw [if_pos rfl, he]
        simp only [entry, hmap, StreamMap.find_erase_same, Option.getD_none]
      · simp only [hD, if_false, entry, hmap, StreamMap.find_erase_other _ _ _ hD]
    · simp only [he, if_false] at hmap
      by_cases hD : D = type
      · subst hD
        rw [if_pos rfl]
        simp only [entry, hmap, StreamMap.find_assign_same, Option.getD_some]
      · simp only [hD, if_false, entry, hmap, StreamMap.find_assign_other _ _ _ _ hD]
  · have hmap := (hout hl).2.2
    by_cases hD : D = type
    · subst hD
      rw [if_pos rfl, List.erase_of_not_mem hl]
      simp only [entry, hmap]
    · simp only [hD, if_false, entry, hmap]

/-- The wildcard vector stays an ordered part of the chain of "*". -/
theorem Reachable_globals_sublist (m : LogManager) (h : Reachable m) :
    List.Sublist m.GlobalLogStreams (entry m "*") := by
  induction h with
  | init => exact List.Sublist.refl _
  | add type l _ ih =>
    rw [AddLogType_globals, AddLogType_entry]
    by_cases ht : type = "*"
    · subst ht
      simp only [if_true]
      exact List.Sublist.append ih (List.Sublist.refl _)
    · have ht2 : ¬ "*" = type := fun e => ht e.symm
      simp only [ht, ht2, if_false]
      exact ih
  | del fuel type l out hm hdel ih =>
    rename_i m0
    rw [(DelLogType_eq_some fuel type l m0 out hdel).1, DelLogType_entry fuel type "*" l m0 out hdel]
    by_cases ht : "*" = type
    · subst ht
      simp only [if_true]
      exact List.Sublist.erase l ih
    · simp only [ht, if_false]
      exact (List.erase_sublist l _).trans ih

/-- One call keeps this: `S` occurs as often in the wildcard vector as in the
chain of "*", provided the call is not a `DelLogType` of `S` under a category
other than "*". -/
theorem step_star_count (fuel : Nat) (S : LogStream) (op : Op) (h0 h : History)
    (hop : ∀ C, op = Op.del C S → C = "*")
    (hinv : h0.mgr.GlobalLogStreams.count S = (entry h0.mgr "*").count S)
    (hstep : step fuel h0 op = some h) :
    h.mgr.GlobalLogStreams.count S = (entry h.mgr "*").count S := by
  cases op with
  | add type l =>
    simp only [step, Option.some.injEq] at hstep
    subst hstep
    simp only [AddLogType_entry, AddLogType_globals]
    by_cases ht : type = "*"
    · subst ht
      simp only [if_true, List.count_append, hinv]
    · have ht2 : ¬ "*" = type := fun e => ht e.symm
      simp only [ht, ht2, if_false]
      exact hinv
  | del type l =>
    simp only [step] at hstep
    cases hd : DelLogType fuel type l h0.mgr with
    | none => simp [hd] at hstep
    | some out =>
      simp only [hd, Option.some.injEq] at hstep
      subst hstep
      show out.mgr.GlobalLogStreams.count S = (entry out.mgr "*").count S
      rw [(DelLogType_eq_some fuel type l h0.mgr out hd).1,
        DelLogType_entry fuel type "*" l h0.mgr out hd]
      by_cases ht : "*" = type
      · subst ht
        simp only [if_true]
        rw [List.count_erase, List.count_erase, hinv]
      · simp only [ht, if_false]
        have hne : S ≠ l := by
          intro e
          subst e
          exact ht (hop type rfl).symm
        rw [List.count_erase_of_ne hne, hinv]

/-- The same over a sequence of calls. -/
theorem run_star_count (fuel : Nat) (S : LogStream) (ops : List Op) (h0 h : History)
    (hops : ∀ C, Op.del C S ∈ ops → C = "*")
    (hinv : h0.mgr.GlobalLogStreams.count S = (entry h0.mgr "*").count S)
    (hrun : run fuel ops h0 = some h) :
    h.mgr.GlobalLogStreams.count S = (entry h.mgr "*").count S := by
  induction ops generalizing h0 with
  | nil =>
    simp only [run, Option.some.injEq] at hrun
    subst hrun
    exact hinv
  | cons op rest ih =>
    simp only [run] at hrun
    cases hs : step fuel h0 op with
    | none => simp [hs] at hrun
    | some h1 =>
      simp only [hs] at hrun
      refine ih h1 (fun C hm => hops C (List.mem_cons_of_mem _ hm)) ?_ hrun
      exact step_star_count fuel S op h0 h1
        (fun C e => hops C (e ▸ List.mem_cons_self _ _)) hinv hs

/-- Registries of histories run from the empty one are reachable. -/
theorem run_reachable (fuel : Nat) (ops : List Op) (h0 h : History) (h0r : Reachable h0.mgr)
    (hrun : run fuel ops h0 = some h) : Reachable h.mgr := by
  induction ops generalizing h0 with
  | nil =>
    simp only [run, Option.some.injEq] at hrun
    subst hrun
    exact h0r
  | cons op rest ih =>
    simp only [run] at hrun
    cases hs : step fuel h0 op with
    | none => simp [hs] at hrun
    | some h1 =>
      simp only [hs] at hrun
      refine ih h1 ?_ hrun
      cases op with
      | add type l =>
        simp only [step, Option.some.injEq] at hs
        subst hs
        exact Reachable.add type l h0r
      | del type l =>
        simp only [step] at hs
        cases hd : DelLogType fuel type l h0.mgr with
        | none => simp [hd] at hs
        | some out =>
          simp only [hd, Option.some.injEq] at hs
          subst hs
          exact Reachable.del fuel type l out h0r hd

/-- Registering a stream that is not in the chain of `C` and deregistering it
at once gives back the map, when the chain of `C`, if the map has one, is not
empty. -/
theorem AddLogType_DelLogType_map (fuel : Nat) (m : LogManager) (C : String) (S : LogStream)
    (out : Outcome) (hne : ∀ v, m.LogStreams.find C = some v → v ≠ [])
    (hS : S ∉ entry m C) (hret : DelLogType fuel C S (AddLogType C S m).mgr = some out) :
    out.ret = true ∧ out.mgr.LogStreams = m.LogStreams := by
  obtain ⟨-, hin, -⟩ := DelLogType_eq_some fuel C S _ out hret
  have hent : entry (AddLogType C S m).mgr C = entry m C ++ [S] := by
    rw [AddLogType_entry, if_pos rfl]
  have her : (entry m C ++ [S]).erase S = entry m C := by
    rw [List.erase_append_right _ hS]
    simp
  rw [hent, her] at hin
  obtain ⟨hr, -, hmap⟩ := hin (List.mem_append_right _ (List.mem_singleton_self S))
  refine ⟨hr, ?_⟩
  rw [hmap]
  funext k
  have hother : ∀ k, k ≠ C → (AddLogType C S m).mgr.LogStreams k = m.LogStreams k :=
    fun k hk => AddLogType_find_other m C k S hk
  cases hf : m.LogStreams.find C with
  | none =>
    have he : entry m C = [] := by simp [entry, hf]
    simp only [he, if_true, StreamMap.erase]
    by_cases hk : k = C
    · subst hk
      simpa [StreamMap.find] using hf.symm
    · simp only [hk, if_false, hother k hk]
  | some v =>
    have he : entry m C = v := by simp [entry, hf]
    have hv : v ≠ [] := hne v hf
    simp only [he, hv, if_false, StreamMap.assign]
    by_cases hk : k = C
    · subst hk
      simpa [StreamMap.find] using hf.symm
    · simp only [hk, if_false, hother k hk]

/-- What a returning `DelLogType(C, S)` does when the chain of `C` is the
single stream `S`: it returns true, the key `C` is gone, and a later
`Log(C, lvl, msg)` goes to the wildcard vector that the call left. -/
theorem DelLogType_last_of_returns (fuel : Nat) (m : LogManager) (C : String) (S : LogStream)
    (out : Outcome) (lvl : Int) (msg : String) (hC : entry m C = [S])
    (h : DelLogType fuel C S m = some out) :
    out.ret = true ∧ out.mgr.LogStreams.find C = none ∧
    Log C lvl msg out.mgr = notify lvl msg (m.GlobalLogStreams.erase S) := by
  obtain ⟨hglob, hin, -⟩ := DelLogType_eq_some fuel C S m out h
  rw [hC] at hin
  obtain ⟨hr, -, hmap⟩ := hin (List.mem_singleton_self S)
  have her : [S].erase S = [] := by simp
  simp only [her, if_true] at hmap
  have hfind : out.mgr.LogStreams.find C = none := by
    rw [hmap, StreamMap.find_erase_same]
  refine ⟨hr, hfind, ?_⟩
  simp only [Log, hfind, hglob]

/-! ## Deregistration of the last stream -/

/-- C11, the code at a failing input.  After `AddLogType("KILL", 7)` and
`AddLogType("*", 8)` the chain of "KILL" is the single stream 7 and the
wildcard vector is 8; `DelLogType("KILL", 7)` does not return for any amount
of fuel, so it reports nothing and no later `Log` is reached. -/
theorem DelLogType_last_sink_stuck :
    entry (AddLogType "*" 8 (AddLogType "KILL" 7 LogManager.empty).mgr).mgr "KILL" = [7] ∧
    (AddLogType "*" 8 (AddLogType "KILL" 7 LogManager.empty).mgr).mgr.GlobalLogStreams = [8] ∧
    (∀ fuel : Nat,
      DelLogType fuel "KILL" 7 (AddLogType "*" 8 (AddLogType "KILL" 7 LogManager.empty).mgr).mgr
        = none) := by
  refine ⟨by decide, rfl, fun fuel => ?_⟩
  have hg : (AddLogType "*" 8 (AddLogType "KILL" 7 LogManager.empty).mgr).mgr.GlobalLogStreams
      = [8] := rfl
  simp only [DelLogType, hg, delGlobalScan_stuck 7 8 [] (by decide) fuel]

/-! ## The formatted overload -/

/-- C12. For a rendering `r` without NUL, the formatted `Log` makes the calls
of the plain `Log` with the same category and level and with the first 65535
characters of `r` as message: that message is `r` when `r` has at most 65535
characters, and otherwise has exactly 65535 characters and `r` continues it. -/
theorem LogFmt_bounded (type : String) (lvl : Int) (r : String) (m : LogManager)
    (hr : ∀ c ∈ r.data, c ≠ Char.ofNat 0) :
    LogFmt type lvl r m = Log type lvl (String.mk (r.data.take 65535)) m ∧
    (r.length ≤ 65535 → String.mk (r.data.take 65535) = r) ∧
    (65535 < r.length → (String.mk (r.data.take 65535)).length = 65535 ∧
      ∃ rest : List Char, r.data = r.data.take 65535 ++ rest) := by
  have htake : ∀ c ∈ r.data.take 65535, c ≠ Char.ofNat 0 :=
    fun c hc => hr c (List.mem_of_mem_take hc)
  refine ⟨?_, ?_, ?_⟩
  · simp only [LogFmt, stdString, vsnprintf, Nat.add_one_sub_one]
    rw [takeWhile_terminated _ htake]
  · intro hle
    have hlen : r.data.length ≤ 65535 := hle
    rw [List.take_of_length_le hlen]
  · intro hlt
    have hlen : 65535 < r.data.length := hlt
    refine ⟨?_, r.data.drop 65535, (List.take_append_drop 65535 r.data).symm⟩
    show (r.data.take 65535).length = 65535
    rw [List.length_take]
    omega

/-- C12, at a rendering of 65536 characters: it holds no NUL, and the message
delivered is cut to 65535 characters. -/
theorem LogFmt_bounded_witness :
    (∀ c ∈ (String.mk (List.replicate 65536 'a')).data, c ≠ Char.ofNat 0) ∧
    LogFmt "KILL" 1 (String.mk (List.replicate 65536 'a')) LogManager.empty
      = Log "KILL" 1 (String.mk ((String.mk (List.replicate 65536 'a')).data.take 65535))
          LogManager.empty ∧
    (String.mk ((String.mk (List.replicate 65536 'a')).data.take 65535)).length = 65535 :=
  have hr : ∀ c ∈ (String.mk (List.replicate 65536 'a')).data, c ≠ Char.ofNat 0 := by
    intro c hc
    have hca : c = 'a' := (List.mem_replicate.1 hc).2
    rw [hca]
    decide
  have hlong : 65535 < (String.mk (List.replicate 65536 'a')).length := by
    show 65535 < (List.replicate 65536 'a').length
    rw [List.length_replicate]
    omega
  ⟨hr,
   (LogFmt_bounded "KILL" 1 (String.mk (List.replicate 65536 'a')) LogManager.empty hr).1,
   ((LogFmt_bounded "KILL" 1 (String.mk (List.replicate 65536 'a')) LogManager.empty hr).2.2
      hlong).1⟩

/-! ## Ownership of the streams -/

/-- C13, the code at two failing inputs.  Registering stream 7 twice under
"KILL" and deregistering it twice, with no registration after a deletion,
makes the registry delete 7 twice; so does registering it under "KILL" and
under "XLINE" and deregistering it from both. -/
theorem run_deletes_twice :
    addsFresh 1 [Op.add "KILL" 7, Op.add "KILL" 7, Op.del "KILL" 7, Op.del "KILL" 7]
      History.empty = true ∧
    (run 1 [Op.add "KILL" 7, Op.add "KILL" 7, Op.del "KILL" 7, Op.del "KILL" 7]
      History.empty).map (fun h => h.deleted) = some [7, 7] ∧
    addsFresh 1 [Op.add "KILL" 7, Op.add "XLINE" 7, Op.del "KILL" 7, Op.del "XLINE" 7]
      History.empty = true ∧
    (run 1 [Op.add "KILL" 7, Op.add "XLINE" 7, Op.del "KILL" 7, Op.del "XLINE" 7]
      History.empty).map (fun h => h.deleted) = some [7, 7] := by
  decide

/-- C17, the code at a failing input.  After `AddLogType("KILL", 7)`,
`AddLogType("XLINE", 7)` and `DelLogType("KILL", 7)`, with no registration
after a deletion, the registry has deleted 7 and still holds it in the chain of
"XLINE", and `Log("XLINE", 1, "x")` calls `OnLog` on it. -/
theorem run_keeps_deleted_stream :
    addsFresh 1 [Op.add "KILL" 7, Op.add "XLINE" 7, Op.del "KILL" 7] History.empty = true ∧
    (run 1 [Op.add "KILL" 7, Op.add "XLINE" 7, Op.del "KILL" 7] History.empty).map
        (fun h => (h.deleted, entry h.mgr "XLINE", Log "XLINE" 1 "x" h.mgr))
      = some ([7], [7], [⟨7, 1, "x"⟩]) := by
  decide

/-! ## One stream under two categories -/

/-- C14. When `S` is in no chain and not in the wildcard vector and `C1`, `C2`
are different categories, then after `AddLogType(C1, S)` and
`AddLogType(C2, S)` each of `Log(C1, lvl, msg)` and `Log(C2, lvl, msg)` calls
`S` exactly once, two calls in total. -/
theorem Log_two_categories (m : LogManager) (C1 C2 : String) (S : LogStream) (lvl : Int)
    (msg : String) (hne : C1 ≠ C2) (htab : ∀ D : String, S ∉ entry m D)
    (_hwild : S ∉ m.GlobalLogStreams) :
    callsOn S (Log C1 lvl msg (AddLogType C2 S (AddLogType C1 S m).mgr).mgr) = 1 ∧
    callsOn S (Log C2 lvl msg (AddLogType C2 S (AddLogType C1 S m).mgr).mgr) = 1 ∧
    callsOn S (Log C1 lvl msg (AddLogType C2 S (AddLogType C1 S m).mgr).mgr)
      + callsOn S (Log C2 lvl msg (AddLogType C2 S (AddLogType C1 S m).mgr).mgr) = 2 := by
  have h1 : callsOn S (Log C1 lvl msg (AddLogType C2 S (AddLogType C1 S m).mgr).mgr) = 1 := by
    have hf : (AddLogType C2 S (AddLogType C1 S m).mgr).mgr.LogStreams.find C1
        = some (entry m C1 ++ [S]) := by
      rw [AddLogType_find_other _ C2 C1 S hne, AddLogType_find_same]
    simp only [Log, hf, callsOn_notify]
    simp [List.count_eq_zero_of_not_mem (htab C1)]
  have h2 : callsOn S (Log C2 lvl msg (AddLogType C2 S (AddLogType C1 S m).mgr).mgr) = 1 := by
    have hent : entry (AddLogType C1 S m).mgr C2 = entry m C2 := by
      rw [AddLogType_entry, if_neg (fun e : C2 = C1 => hne e.symm)]
    simp only [Log, AddLogType_find_same, callsOn_notify, hent]
    simp [List.count_eq_zero_of_not_mem (htab C2)]
  exact ⟨h1, h2, by rw [h1, h2]⟩

/-- C14, at the empty registry with stream 7 and the categories "KILL" and
"XLINE". -/
theorem Log_two_categories_witness :
    "KILL" ≠ "XLINE" ∧ (∀ D : String, 7 ∉ entry LogManager.empty D) ∧
    7 ∉ LogManager.empty.GlobalLogStreams ∧
    callsOn 7 (Log "KILL" 1 "x"
      (AddLogType "XLINE" 7 (AddLogType "KILL" 7 LogManager.empty).mgr).mgr) = 1 ∧
    callsOn 7 (Log "XLINE" 1 "x"
      (AddLogType "XLINE" 7 (AddLogType "KILL" 7 LogManager.empty).mgr).mgr) = 1 ∧
    callsOn 7 (Log "KILL" 1 "x"
      (AddLogType "XLINE" 7 (AddLogType "KILL" 7 LogManager.empty).mgr).mgr)
      + callsOn 7 (Log "XLINE" 1 "x"
          (AddLogType "XLINE" 7 (AddLogType "KILL" 7 LogManager.empty).mgr).mgr) = 2 :=
  ⟨by decide, fun _ => List.not_mem_nil 7, List.not_mem_nil 7,
   Log_two_categories LogManager.empty "KILL" "XLINE" 7 1 "x" (by decide)
    (fun _ => List.not_mem_nil 7) (List.not_mem_nil 7)⟩

/-! ## Termination of `DelLogType` -/

/-- C16. The loop over the wildcard vector in `DelLogType(C, S)` ends, and the
call returns, exactly when the wildcard vector is empty or its first element
is `S`; when the vector is non-empty and starts with another stream the call
does not return for any fuel, wherever else `S` may be registered. -/
theorem DelLogType_returns_iff (m : LogManager) (C : String) (S : LogStream) :
    ((∃ fuel g2, delGlobalScan S m.GlobalLogStreams 0 fuel = some g2) ↔
      (m.GlobalLogStreams = [] ∨ m.GlobalLogStreams.head? = some S)) ∧
    ((∃ fuel out, DelLogType fuel C S m = some out) ↔
      (m.GlobalLogStreams = [] ∨ m.GlobalLogStreams.head? = some S)) ∧
    (m.GlobalLogStreams ≠ [] → m.GlobalLogStreams.head? ≠ some S →
      ∀ fuel : Nat, DelLogType fuel C S m = none) := by
  have hscan : (∃ fuel g2, delGlobalScan S m.GlobalLogStreams 0 fuel = some g2) ↔
      (m.GlobalLogStreams = [] ∨ m.GlobalLogStreams.head? = some S) := by
    constructor
    · rintro ⟨fuel, g2, h⟩
      exact (delGlobalScan_eq_some S _ g2 fuel h).2
    · intro hg
      exact ⟨1, _, delGlobalScan_returns S m.GlobalLogStreams 0 hg⟩
  have hcall : (∃ fuel out, DelLogType fuel C S m = some out) ↔
      (m.GlobalLogStreams = [] ∨ m.GlobalLogStreams.head? = some S) := by
    rw [← hscan]
    constructor
    · rintro ⟨fuel, hout⟩
      exact ⟨fuel, (DelLogType_isSome_iff fuel C S m).1 hout⟩
    · rintro ⟨fuel, hg2⟩
      exact ⟨fuel, (DelLogType_isSome_iff fuel C S m).2 hg2⟩
  refine ⟨hscan, hcall, fun hne hhead fuel => ?_⟩
  cases hd : DelLogType fuel C S m with
  | none => rfl
  | some out =>
    rcases hcall.1 ⟨fuel, out, hd⟩ with h | h
    · exact absurd h hne
    · exact absurd h hhead

/-! ## The wildcard vector and the chain of "*" -/

/-- C15 as stated fails: after `AddLogType("*", 7)`, the call
`DelLogType("KILL", 7)` returns false and has taken 7 out of the wildcard
vector; in the registry it leaves, 7 is in the chain of "*" and not in the
wildcard vector. -/
theorem Reachable_star_not_in_globals :
    DelLogType 1 "KILL" 7 (AddLogType "*" 7 LogManager.empty).mgr
      = some ⟨false, ⟨(AddLogType "*" 7 LogManager.empty).mgr.LogStreams, []⟩, []⟩ ∧
    Reachable ⟨(AddLogType "*" 7 LogManager.empty).mgr.LogStreams, []⟩ ∧
    7 ∈ entry ⟨(AddLogType "*" 7 LogManager.empty).mgr.LogStreams, []⟩ "*" ∧
    7 ∉ (⟨(AddLogType "*" 7 LogManager.empty).mgr.LogStreams, []⟩ :
      LogManager).GlobalLogStreams :=
  ⟨rfl,
   Reachable.del 1 "KILL" 7 ⟨false, ⟨(AddLogType "*" 7 LogManager.empty).mgr.LogStreams, []⟩, []⟩
    (Reachable.add "*" 7 Reachable.init) rfl,
   by decide, by decide⟩

/-- C15, amended. In the registry left by a sequence `ops` of `AddLogType`
calls and returning `DelLogType` calls on the empty registry, every stream
that was not passed to a `DelLogType` call of `ops` with a category other
than "*" occurs as often in the wildcard vector as in the chain of "*"; so
when it occurs in the chain of "*" it occurs in the wildcard vector. -/
theorem run_star_registered_in_globals (fuel : Nat) (ops : List Op) (h : History)
    (S : LogStream) (hrun : run fuel ops History.empty = some h)
    (hdel : ∀ C : String, Op.del C S ∈ ops → C = "*") :
    h.mgr.GlobalLogStreams.count S = (entry h.mgr "*").count S ∧
    (S ∈ entry h.mgr "*" → S ∈ h.mgr.GlobalLogStreams) := by
  have hcount : h.mgr.GlobalLogStreams.count S = (entry h.mgr "*").count S :=
    run_star_count fuel S ops History.empty h hdel rfl hrun
  refine ⟨hcount, fun hS => ?_⟩
  rw [← List.count_pos_iff] at hS ⊢
  rw [hcount]
  exact hS

/-- C15 amended, at a concrete sequence: `AddLogType("*", 7)` twice, then
`DelLogType("*", 7)`; stream 7 was passed to `DelLogType` under "*" only, and
it is left once in the chain of "*" and once in the wildcard vector. -/
theorem run_star_registered_in_globals_witness :
    run 1 [Op.add "*" 7, Op.add "*" 7, Op.del "*" 7] History.empty
      = some ⟨⟨(AddLogType "*" 7 (AddLogType "*" 7 LogManager.empty).mgr).mgr.LogStreams.assign
          "*" [7], [7]⟩, [7]⟩ ∧
    (∀ C : String, Op.del C 7 ∈ [Op.add "*" 7, Op.add "*" 7, Op.del "*" 7] → C = "*") ∧
    (([7] : List LogStream).count 7
        = (entry ⟨(AddLogType "*" 7 (AddLogType "*" 7 LogManager.empty).mgr).mgr.LogStreams.assign
            "*" [7], [7]⟩ "*").count 7 ∧
      (7 ∈ entry ⟨(AddLogType "*" 7 (AddLogType "*" 7 LogManager.empty).mgr).mgr.LogStreams.assign
          "*" [7], [7]⟩ "*" → 7 ∈ ([7] : List LogStream))) :=
  ⟨rfl, fun C hC => by simpa using hC,
   run_star_registered_in_globals 1 [Op.add "*" 7, Op.add "*" 7, Op.del "*" 7]
    ⟨⟨(AddLogType "*" 7 (AddLogType "*" 7 LogManager.empty).mgr).mgr.LogStreams.assign
      "*" [7], [7]⟩, [7]⟩
    7 rfl (fun C hC => by simpa using hC)⟩

/-- C18. In every registry reached from the empty one by `AddLogType` calls and
returning `DelLogType` calls, the wildcard vector is an order-preserving
sublist, with multiplicity, of the chain of "*" (empty when the map has no key
"*"); so a non-empty wildcard vector means that the map has the key "*". -/
theorem Reachable_globals_in_star (m : LogManager) (h : Reachable m) :
    List.Sublist m.GlobalLogStreams (entry m "*") ∧
    (m.GlobalLogStreams ≠ [] → (m.LogStreams.find "*").isSome = true) := by
  have hsub := Reachable_globals_sublist m h
  refine ⟨hsub, fun hne => ?_⟩
  cases hf : m.LogStreams.find "*" with
  | some v => rfl
  | none =>
    have he : entry m "*" = [] := by simp [entry, hf]
    rw [he] at hsub
    exact absurd (List.sublist_nil.1 hsub) hne

/-- C18, at a concrete registry: after `AddLogType("*", 7)`,
`AddLogType("*", 8)` and `DelLogType("KILL", 7)` the wildcard vector 8 is a
sublist of the chain 7, 8 of "*". -/
theorem Reachable_globals_in_star_witness :
    Reachable ⟨(AddLogType "*" 8 (AddLogType "*" 7 LogManager.empty).mgr).mgr.LogStreams, [8]⟩ ∧
    List.Sublist [8]
      (entry ⟨(AddLogType "*" 8 (AddLogType "*" 7 LogManager.empty).mgr).mgr.LogStreams,
        [8]⟩ "*") :=
  have hreach :
      Reachable ⟨(AddLogType "*" 8 (AddLogType "*" 7 LogManager.empty).mgr).mgr.LogStreams,
        [8]⟩ :=
    Reachable.del 1 "KILL" 7
      ⟨false, ⟨(AddLogType "*" 8 (AddLogType "*" 7 LogManager.empty).mgr).mgr.LogStreams,
        [8]⟩, []⟩
      (Reachable.add "*" 8 (Reachable.add "*" 7 Reachable.init)) rfl
  ⟨hreach, (Reachable_globals_in_star _ hreach).1⟩

/-! ## Registration followed by deregistration -/

/-- C19. In a registry reached from the empty one, when `S` is not in the chain
of `C` and `DelLogType(C, S)` right after `AddLogType(C, S)` returns, it
returns true and the map is the one before the `AddLogType`; when `S` was not
in the wildcard vector either, the wildcard vector is as before too. -/
theorem AddLogType_DelLogType_round_trip (fuel : Nat) (m : LogManager) (C : String)
    (S : LogStream) (out : Outcome) (hm : Reachable m) (hS : S ∉ entry m C)
    (hret : DelLogType fuel C S (AddLogType C S m).mgr = some out) :
    out.ret = true ∧ out.mgr.LogStreams = m.LogStreams ∧
    (S ∉ m.GlobalLogStreams → out.mgr.GlobalLogStreams = m.GlobalLogStreams) := by
  obtain ⟨hr, hmap⟩ :=
    AddLogType_DelLogType_map fuel m C S out (Reachable_chain_ne_nil m hm C) hS hret
  refine ⟨hr, hmap, fun hg => ?_⟩
  rw [(DelLogType_eq_some fuel C S _ out hret).1, AddLogType_globals]
  by_cases hC : C = "*"
  · simp only [hC, if_true]
    rw [List.erase_append_right _ hg]
    simp
  · simp only [hC, if_false]
    exact List.erase_of_not_mem hg

/-- C19, at a concrete registry: after `AddLogType("XLINE", 8)`, registering 7
under "*" and deregistering it gives true, the same map and the same (empty)
wildcard vector. -/
theorem AddLogType_DelLogType_round_trip_witness :
    Reachable (AddLogType "XLINE" 8 LogManager.empty).mgr ∧
    7 ∉ entry (AddLogType "XLINE" 8 LogManager.empty).mgr "*" ∧
    DelLogType 1 "*" 7 (AddLogType "*" 7 (AddLogType "XLINE" 8 LogManager.empty).mgr).mgr
      = some ⟨true,
          ⟨((AddLogType "*" 7 (AddLogType "XLINE" 8 LogManager.empty).mgr).mgr.LogStreams.assign
            "*" []).erase "*", []⟩, [7]⟩ ∧
    (true = true ∧
      ((AddLogType "*" 7 (AddLogType "XLINE" 8 LogManager.empty).mgr).mgr.LogStreams.assign
          "*" []).erase "*"
        = (AddLogType "XLINE" 8 LogManager.empty).mgr.LogStreams ∧
      (7 ∉ (AddLogType "XLINE" 8 LogManager.empty).mgr.GlobalLogStreams →
        ([] : List LogStream) = (AddLogType "XLINE" 8 LogManager.empty).mgr.GlobalLogStreams)) :=
  ⟨Reachable.add "XLINE" 8 Reachable.init, by decide, rfl,
   AddLogType_DelLogType_round_trip 1 (AddLogType "XLINE" 8 LogManager.empty).mgr "*" 7
    ⟨true,
      ⟨((AddLogType "*" 7 (AddLogType "XLINE" 8 LogManager.empty).mgr).mgr.LogStreams.assign
        "*" []).erase "*", []⟩, [7]⟩
    (Reachable.add "XLINE" 8 Reachable.init) (by decide) rfl⟩

end InspIRCd
